import Mathlib

/-!
Shallow embedding of the reward-accrual query
`contracts/liquidity_hub/pool-network/incentive/src/queries/get_rewards.rs`
(`get_rewards`).  `Uint128` values are modelled as `Nat` with explicit
`2 ^ 128` bounds at every checked operation; `u64` epoch ids are modelled as
`Nat`, with the one `u64` subtraction that can mathematically underflow
(`epoch_id - 1u64`, line 101) modelled as a distinguished error
(cosmwasm contracts are compiled with overflow checks, so the underflow
aborts rather than wraps).  Storage reads (`LAST_CLAIMED_EPOCH`,
`ADDRESS_WEIGHT_HISTORY`, `GLOBAL_WEIGHT_SNAPSHOT`) and the external helper
queries (`get_current_epoch`, `get_available_flows`,
`get_earliest_available_weight_snapshot_for_user`) are modelled as fields of
an explicit `Storage` record for the single queried address; address
validation (line 12) is outside the modelled data and always succeeds here.
-/

namespace Incentive

/-- The `Uint128` overflow bound. -/
def U128_BOUND : Nat := 2 ^ 128

/-- The constant `Decimal256::DECIMAL_FRACTIONAL = 10^18`: the fixed-point denominator of
cosmwasm `Decimal256`. -/
def DECIMAL_FRACTIONAL : Nat := 10 ^ 18

/-- The failure modes of `get_rewards` that the embedding distinguishes.
Panics of the Rust code (checked `u64` underflow at line 101, the
`Decimal256::from_ratio` division-by-zero panic) are modelled as errors so
that each abort path is observable. -/
inductive ContractError where
  | epochUnderflow
  | divideByZero
  | addOverflow
  | panicDivZero
  | conversionOverflow
  | invalidReward
  deriving DecidableEq, Repr

/-- The type `white_whale::pool_network::asset::Asset`: an asset type identifier plus
a `Uint128` amount.  The identifier (`AssetInfo` in the source) is abstracted
to a `Nat`. -/
structure Asset where
  info : Nat
  amount : Nat
  deriving DecidableEq, Repr

/-- The flow's `emitted_tokens : BTreeMap<u64, Uint128>` memo, as an
association list (later inserts are consed in front; the code only inserts
keys that are absent, so lookups agree with the B-tree map). -/
abbrev Memo := List (Nat × Nat)

/-- Lookup, as `BTreeMap::get`. -/
def memoFind : Memo → Nat → Option Nat
  | [], _ => none
  | (k, v) :: rest, e => if k = e then some v else memoFind rest e

/-- Insertion, as `BTreeMap::insert` (only ever called on absent keys, line 121). -/
def memoInsert (m : Memo) (k : Nat) (v : Nat) : Memo := (k, v) :: m

/-- The fields of `white_whale::pool_network::incentive::Flow` read by
`get_rewards`. -/
structure Flow where
  flow_asset : Asset
  start_epoch : Nat
  end_epoch : Nat
  claimed_amount : Nat
  emitted_tokens : Memo
  deriving DecidableEq, Repr

/-- The type `white_whale::pool_network::incentive::RewardsResponse`. -/
structure RewardsResponse where
  rewards : List Asset
  deriving DecidableEq, Repr

/-- Point-in-time snapshot of everything `get_rewards` reads for one address:
the current epoch (`helpers::get_current_epoch`), the address's
`LAST_CLAIMED_EPOCH` record, the active flows
(`helpers::get_available_flows`), the address's earliest weight snapshot
(`helpers::get_earliest_available_weight_snapshot_for_user`, ordered
ascending), `ADDRESS_WEIGHT_HISTORY` for this address and
`GLOBAL_WEIGHT_SNAPSHOT`. -/
structure Storage where
  currentEpoch : Nat
  lastClaimedEpoch : Option Nat
  flows : List Flow
  earliestUserWeight : List (Nat × Nat)
  userWeight : Nat → Option Nat
  globalWeight : Nat → Option Nat

/-- Checked division, as `Uint128::checked_div` (line 114). -/
def checkedDiv (a b : Nat) : Except ContractError Nat :=
  if b = 0 then .error .divideByZero else .ok (a / b)

/-- Checked addition, as `Uint128::checked_add` (lines 123, 167) and the panicking `+=` at
line 172, modelled uniformly as a checked addition against `2 ^ 128`. -/
def checkedAdd (a b : Nat) : Except ContractError Nat :=
  if a + b < U128_BOUND then .ok (a + b) else .error .addOverflow

/-- The ratio `Decimal256::from_ratio(u, g)` (line 161): fixed-point atomics
`⌊u * 10^18 / g⌋`; panics on a zero denominator (modelled as
`panicDivZero`).  For `u < 2 ^ 128` the atomics always fit `Uint256`, so the
overflow panic of `from_ratio` is unreachable and not modelled. -/
def fromRatio (u g : Nat) : Except ContractError Nat :=
  if g = 0 then .error .panicDivZero else .ok (u * DECIMAL_FRACTIONAL / g)

/-- Multiplication `Uint256 * Decimal256` (line 163) rounds down:
`⌊x * atomics / 10^18⌋`.  With both factors bounded by `2 ^ 128` the 512-bit
intermediate product never overflows `Uint256`, so the multiply is pure. -/
def mulDecFloor (x atomics : Nat) : Nat := x * atomics / DECIMAL_FRACTIONAL

/-- Narrowing `Uint256 -> Uint128` via `try_into` (line 163). -/
def tryIntoU128 (v : Nat) : Except ContractError Nat :=
  if v < U128_BOUND then .ok v else .error .conversionOverflow

/-- Lines 90–105: the cumulative tokens already emitted before `e`.  Zero for
an empty memo; otherwise the memo entry at `e - 1u64` (defaulting to zero),
where the `u64` subtraction underflows when `e = 0`. -/
def emittedSoFar (memo : Memo) (e : Nat) : Except ContractError Nat :=
  if memo.isEmpty then .ok 0
  else if e = 0 then .error .epochUnderflow
  else .ok ((memoFind memo (e - 1)).getD 0)

/-- Lines 90–114: the pair (emitted so far, emission for epoch `e`), where
`emission = (flow_asset.amount ⊖ emitted) / (end_epoch - e)` with saturating
subtraction and checked (truncating) division. -/
def emissionAt (flow : Flow) (memo : Memo) (e : Nat) :
    Except ContractError (Nat × Nat) :=
  match emittedSoFar memo e with
  | .error er => .error er
  | .ok emitted =>
    match checkedDiv (flow.flow_asset.amount - emitted) (flow.end_epoch - e) with
    | .error er => .error er
    | .ok emission => .ok (emitted, emission)

/-- Lines 118–124: memoize `memo[e] = emission + emitted` when `e` is not
yet recorded. -/
def memoStep (memo : Memo) (e : Nat) (emitted emission : Nat) :
    Except ContractError Memo :=
  if (memoFind memo e).isNone then
    match checkedAdd emission emitted with
    | .error er => .error er
    | .ok v => .ok (memoInsert memo e v)
  else .ok memo

/-- Lines 127–148: the user-weight lookback.  `hist` is
`ADDRESS_WEIGHT_HISTORY[(address, e)]`; the cursor is the pair
`(last_epoch_user_weight_update, last_user_weight_seen)`.  Returns the
weight to use together with the updated cursor, or `none` when the epoch is
skipped (the `continue` at line 147). -/
def resolveUserWeight (hist : Option Nat) (cursor : Nat × Nat)
    (e : Nat) : Option (Nat × (Nat × Nat)) :=
  match hist with
  | some w => some (w, (e, w))
  | none =>
    if cursor.1 ≠ 0 ∧ cursor.1 ≤ e then some (cursor.2, cursor) else none

/-- Lines 90–173: the body of the epoch loop for one in-range epoch `e`,
transforming the working memo, the weight cursor and the accumulated
`total_reward`. -/
def epochBody (flow : Flow) (st : Storage) (e : Nat) (memo : Memo)
    (cursor : Nat × Nat) (total : Nat) :
    Except ContractError (Memo × (Nat × Nat) × Nat) :=
  match emissionAt flow memo e with
  | .error er => .error er
  | .ok (emitted, emission) =>
    match memoStep memo e emitted emission with
    | .error er => .error er
    | .ok memo' =>
      match resolveUserWeight (st.userWeight e) cursor e with
      | none => .ok (memo', cursor, total)
      | some (w, cursor') =>
        let g := (st.globalWeight e).getD 0
        if g = 0 then .ok (memo', cursor', total)
        else
          match fromRatio w g with
          | .error er => .error er
          | .ok share =>
            match tryIntoU128 (mulDecFloor emission share) with
            | .error er => .error er
            | .ok reward =>
              if emission < reward then .error .invalidReward
              else
                match checkedAdd reward flow.claimed_amount with
                | .error er => .error er
                | .ok s =>
                  if flow.flow_asset.amount < s then .error .invalidReward
                  else
                    match checkedAdd total reward with
                    | .error er => .error er
                    | .ok total' => .ok (memo', cursor', total')

/-- Lines 78–173: `for epoch_id in first_claimable_epoch..=current_epoch`,
with the `continue` for epochs before `flow.start_epoch` and the `break` at
the first epoch `≥ flow.end_epoch`.  `n` is the number of epochs left in the
range and `e` the next epoch. -/
def flowEpochs (flow : Flow) (st : Storage) :
    Nat → Nat → Memo → Nat × Nat → Nat →
    Except ContractError (Memo × (Nat × Nat) × Nat)
  | 0, _, memo, cursor, total => .ok (memo, cursor, total)
  | n + 1, e, memo, cursor, total =>
    if e < flow.start_epoch then
      flowEpochs flow st n (e + 1) memo cursor total
    else if flow.end_epoch ≤ e then
      .ok (memo, cursor, total)
    else
      match epochBody flow st e memo cursor total with
      | .error er => .error er
      | .ok (memo', cursor', total') =>
        flowEpochs flow st n (e + 1) memo' cursor' total'

/-- Lines 58–71: the first epoch to evaluate for a flow. -/
def firstClaimableEpoch (st : Storage) (flow : Flow)
    (cursorEpoch : Nat) : Nat :=
  match st.lastClaimedEpoch with
  | some l => l + 1
  | none =>
    if cursorEpoch < flow.start_epoch then cursorEpoch else flow.start_epoch

/-- Lines 40–51: the weight cursor reset performed at the top of each flow
iteration: `(0, 0)` unless the earliest available weight snapshot for the
user is non-empty, in which case its first entry. -/
def initCursor (st : Storage) : Nat × Nat :=
  match st.earliestUserWeight with
  | [] => (0, 0)
  | p :: _ => p

/-- Lines 40–178: evaluate one flow — reset the weight cursor from the
earliest available weight snapshot, resolve the claimable range and run the
epoch loop over a local clone of the flow's memo (line 75).  Returns the
per-flow `Asset` that is pushed onto `rewards` together with the final
state of the local memo clone (which `get_rewards`, a read-only query,
drops). -/
def processFlow (st : Storage) (flow : Flow) :
    Except ContractError (Asset × Memo) :=
  match flowEpochs flow st
      (st.currentEpoch + 1 - firstClaimableEpoch st flow (initCursor st).1)
      (firstClaimableEpoch st flow (initCursor st).1)
      flow.emitted_tokens (initCursor st) 0 with
  | .error er => .error er
  | .ok (memo, _, total) =>
    .ok ({ info := flow.flow_asset.info, amount := total }, memo)

/-- Lines 33–179: the flow loop.  A flow that has ended and is fully claimed
is skipped (lines 35–38); otherwise its computed `Asset` is pushed. -/
def flowsLoop (st : Storage) : List Flow → Except ContractError (List Asset)
  | [] => .ok []
  | f :: rest =>
    if f.end_epoch < st.currentEpoch ∧
        f.claimed_amount = f.flow_asset.amount then
      flowsLoop st rest
    else
      match processFlow st f with
      | .error er => .error er
      | .ok (asset, _) =>
        (flowsLoop st rest).map (fun assets => asset :: assets)

/-- Lines 11–184: `get_rewards`.  Short-circuits with an empty reward set
when the current epoch equals the last claimed epoch (lines 17–22);
otherwise evaluates every available flow and drops zero-amount entries
(line 181). -/
def get_rewards (st : Storage) : Except ContractError RewardsResponse :=
  if st.lastClaimedEpoch = some st.currentEpoch then
    .ok { rewards := [] }
  else
    match flowsLoop st st.flows with
    | .error er => .error er
    | .ok rewards =>
      .ok { rewards := rewards.filter (fun a => decide (0 < a.amount)) }

/-- The spec's emission formula, taken from the spec's words for the
refinement claim: "(flow.flow_asset.amount minus the memoized cumulative
emission at epoch e-1, taken as zero when absent, with saturating
subtraction) divided by (flow.end_epoch - e) using truncating integer
division". -/
def specEmission (flow : Flow) (memo : Memo) (e : Nat) : Nat :=
  (flow.flow_asset.amount - (memoFind memo (e - 1)).getD 0) /
    (flow.end_epoch - e)

/-- The data-model invariants on a flow's emission memo named by the
conservation claim: cumulative values are monotonically non-decreasing in
the epoch and bounded by the flow's total amount. -/
def memoWellFormed (flow : Flow) : Prop :=
  (∀ p ∈ flow.emitted_tokens, p.2 ≤ flow.flow_asset.amount) ∧
  (∀ p ∈ flow.emitted_tokens, ∀ q ∈ flow.emitted_tokens,
    p.1 ≤ q.1 → p.2 ≤ q.2)

/-- Invariant carried by the epoch loop when the memo was empty at the start
of the loop: either nothing has been processed yet, or the memo holds the
cumulative total for the epoch just processed, that cumulative bounds the
accumulated reward and is itself bounded by the flow total, and no epoch at
or after the next one is recorded yet. -/
def consInv (A start a : Nat) (memo : Memo) (total : Nat) : Prop :=
  (memo = [] ∧ total = 0) ∨
  (1 ≤ a ∧ start < a ∧ memo ≠ [] ∧
    (∀ e, a ≤ e → memoFind memo e = none) ∧
    ∃ c, memoFind memo (a - 1) = some c ∧ total ≤ c ∧ c ≤ A)

/-! ### Concrete scenarios used by the claims -/

/-- The spec's worked example: a flow funded with 1000, active on epochs
0,1,2,3 (`end_epoch = 4` exclusive). -/
def ex1Flow : Flow := ⟨⟨7, 1000⟩, 0, 4, 0, []⟩

/-- A never-claimed address with weight 100 recorded at every epoch, global
weight 100, current epoch 3. -/
def ex1St : Storage :=
  ⟨3, none, [ex1Flow], [(0, 100)], fun _ => some 100, fun _ => some 100⟩

/-- A flow on epochs 1..4 whose memo `{1 ↦ 0, 2 ↦ 0, 3 ↦ 0}` satisfies the
claimed data-model invariants (non-decreasing, bounded by 1000) but is not
consistent with the emission recurrence. -/
def ex2Flow : Flow := ⟨⟨7, 1000⟩, 1, 5, 0, [(1, 0), (2, 0), (3, 0)]⟩

/-- User weight 100 recorded at epoch 1 (carried forward), global weight 100,
current epoch 4, never claimed. -/
def ex2St : Storage :=
  ⟨4, none, [ex2Flow], [(1, 100)],
   fun e => if e = 1 then some 100 else none, fun _ => some 100⟩

/-- A user weight (200) exceeding the global weight (100), so the computed
share is 2.0 and the per-epoch reward doubles the emission. -/
def ex3St : Storage :=
  ⟨0, none, [ex1Flow], [(0, 200)], fun _ => some 200, fun _ => some 100⟩

/-- An address whose only weight record is at epoch 0 (weight 5): the
last-seen cursor is armed with epoch 0, which the code conflates with
"never recorded". -/
def ex4St : Storage :=
  ⟨1, none, [ex1Flow], [(0, 5)],
   fun e => if e = 0 then some 5 else none, fun _ => some 100⟩

/-- A successful three-epoch claim (epochs 0,1,2 of `ex1Flow`) used to show
the flow record's memo is not written back by the read-only query. -/
def ex5St : Storage :=
  ⟨2, none, [ex1Flow], [(0, 100)], fun _ => some 100, fun _ => some 100⟩

/-- An address that already claimed at the current epoch. -/
def ex6St : Storage :=
  ⟨5, some 5, [ex1Flow], [(0, 100)], fun _ => some 100, fun _ => some 100⟩

/-- A flow funded with 3 over epochs 0,1: emissions are 3/2 = 1 then
(3-1)/1 = 2, an increasing schedule. -/
def ex8Flow : Flow := ⟨⟨7, 3⟩, 0, 2, 0, []⟩

/-- Constant weight ratio 1.0 (user 100 / global 100), current epoch 1. -/
def ex8St : Storage :=
  ⟨1, none, [ex8Flow], [(0, 100)], fun _ => some 100, fun _ => some 100⟩

/-- Two distinct flows rewarding the same asset type 7, current epoch 0. -/
def ex9St : Storage :=
  ⟨0, none, [ex1Flow, ex1Flow], [(0, 100)], fun _ => some 100,
   fun _ => some 100⟩

/-- A flow starting at epoch 0 whose memo was already populated by an
earlier claimer (`{0 ↦ 250}`). -/
def ex10Flow : Flow := ⟨⟨7, 1000⟩, 0, 4, 0, [(0, 250)]⟩

/-- A never-claimed address with no weight snapshots evaluating `ex10Flow`
from epoch 0. -/
def ex10St : Storage :=
  ⟨2, none, [ex10Flow], [], fun _ => none, fun _ => some 100⟩

end Incentive

namespace Incentive

/-! ### Characterization lemmas for the checked operations -/

theorem checkedDiv_ok {a b v : Nat} (h : checkedDiv a b = .ok v) :
    b ≠ 0 ∧ v = a / b := by
  unfold checkedDiv at h
  by_cases hb : b = 0
  · rw [if_pos hb] at h; cases h
  · rw [if_neg hb] at h; cases h; exact ⟨hb, rfl⟩

theorem checkedDiv_err {a b : Nat} {er : ContractError}
    (h : checkedDiv a b = .error er) : er = .divideByZero := by
  unfold checkedDiv at h
  by_cases hb : b = 0
  · rw [if_pos hb] at h; cases h; rfl
  · rw [if_neg hb] at h; cases h

theorem checkedAdd_ok {a b v : Nat} (h : checkedAdd a b = .ok v) :
    v = a + b ∧ a + b < U128_BOUND := by
  unfold checkedAdd at h
  by_cases hb : a + b < U128_BOUND
  · rw [if_pos hb] at h; cases h; exact ⟨rfl, hb⟩
  · rw [if_neg hb] at h; cases h

theorem checkedAdd_err {a b : Nat} {er : ContractError}
    (h : checkedAdd a b = .error er) : er = .addOverflow := by
  unfold checkedAdd at h
  by_cases hb : a + b < U128_BOUND
  · rw [if_pos hb] at h; cases h
  · rw [if_neg hb] at h; cases h; rfl

theorem fromRatio_ok {u g s : Nat} (h : fromRatio u g = .ok s) :
    g ≠ 0 ∧ s = u * DECIMAL_FRACTIONAL / g := by
  unfold fromRatio at h
  by_cases hg : g = 0
  · rw [if_pos hg] at h; cases h
  · rw [if_neg hg] at h; cases h; exact ⟨hg, rfl⟩

theorem fromRatio_err {u g : Nat} {er : ContractError}
    (h : fromRatio u g = .error er) : er = .panicDivZero ∧ g = 0 := by
  unfold fromRatio at h
  by_cases hg : g = 0
  · rw [if_pos hg] at h; cases h; exact ⟨rfl, hg⟩
  · rw [if_neg hg] at h; cases h

theorem tryIntoU128_ok {x v : Nat} (h : tryIntoU128 x = .ok v) :
    v = x ∧ x < U128_BOUND := by
  unfold tryIntoU128 at h
  by_cases hx : x < U128_BOUND
  · rw [if_pos hx] at h; cases h; exact ⟨rfl, hx⟩
  · rw [if_neg hx] at h; cases h

theorem tryIntoU128_err {x : Nat} {er : ContractError}
    (h : tryIntoU128 x = .error er) : er = .conversionOverflow := by
  unfold tryIntoU128 at h
  by_cases hx : x < U128_BOUND
  · rw [if_pos hx] at h; cases h
  · rw [if_neg hx] at h; cases h; rfl

theorem emittedSoFar_ok_empty {e : Nat} {v : Nat}
    (h : emittedSoFar [] e = .ok v) : v = 0 := by
  unfold emittedSoFar at h
  simp only [List.isEmpty_nil, if_pos] at h
  cases h; rfl

theorem emittedSoFar_ok_pos {memo : Memo} {e : Nat} {v : Nat}
    (hne : memo ≠ []) (he : e ≠ 0) (h : emittedSoFar memo e = .ok v) :
    v = (memoFind memo (e - 1)).getD 0 := by
  unfold emittedSoFar at h
  rw [if_neg (by simpa [List.isEmpty_iff] using hne), if_neg he] at h
  cases h; rfl

theorem emittedSoFar_err {memo : Memo} {e : Nat} {er : ContractError}
    (h : emittedSoFar memo e = .error er) :
    er = .epochUnderflow ∧ e = 0 ∧ memo ≠ [] := by
  unfold emittedSoFar at h
  by_cases hm : memo.isEmpty
  · rw [if_pos hm] at h; cases h
  · rw [if_neg hm] at h
    by_cases he : e = 0
    · rw [if_pos he] at h; cases h
      exact ⟨rfl, he, by simpa [List.isEmpty_iff] using hm⟩
    · rw [if_neg he] at h; cases h

/-! ### Memo lemmas -/

theorem memoFind_insert_self (m : Memo) (k : Nat) (v : Nat) :
    memoFind (memoInsert m k v) k = some v := by
  simp [memoInsert, memoFind]

theorem memoFind_insert_ne (m : Memo) {k e : Nat} (v : Nat) (h : k ≠ e) :
    memoFind (memoInsert m k v) e = memoFind m e := by
  simp [memoInsert, memoFind, h]

theorem memoStep_ok {memo : Memo} {e : Nat} {emitted emission : Nat}
    {m' : Memo} (h : memoStep memo e emitted emission = .ok m') :
    (memoFind memo e = none ∧ emission + emitted < U128_BOUND ∧
      m' = memoInsert memo e (emission + emitted)) ∨
    ((memoFind memo e).isSome ∧ m' = memo) := by
  unfold memoStep at h
  by_cases hf : (memoFind memo e).isNone
  · rw [if_pos hf] at h
    cases hA : checkedAdd emission emitted with
    | error er => rw [hA] at h; cases h
    | ok v =>
      rw [hA] at h
      obtain ⟨rfl, hb⟩ := checkedAdd_ok hA
      cases h
      exact Or.inl ⟨Option.isNone_iff_eq_none.mp hf, hb, rfl⟩
  · rw [if_neg hf] at h; cases h
    exact Or.inr ⟨by simpa [Option.isNone_iff_eq_none, ← Option.ne_none_iff_isSome] using hf, rfl⟩

theorem memoStep_err {memo : Memo} {e : Nat} {emitted emission : Nat}
    {er : ContractError} (h : memoStep memo e emitted emission = .error er) :
    er = .addOverflow := by
  unfold memoStep at h
  by_cases hf : (memoFind memo e).isNone
  · rw [if_pos hf] at h
    cases hA : checkedAdd emission emitted with
    | error er' => rw [hA] at h; cases h; exact checkedAdd_err hA
    | ok v => rw [hA] at h; cases h
  · rw [if_neg hf] at h; cases h

/-! ### Characterization of `emissionAt` -/

theorem emissionAt_ok {flow : Flow} {memo : Memo} {e : Nat}
    {p : Nat × Nat} (h : emissionAt flow memo e = .ok p) :
    emittedSoFar memo e = .ok p.1 ∧ flow.end_epoch - e ≠ 0 ∧
    p.2 = (flow.flow_asset.amount - p.1) / (flow.end_epoch - e) := by
  unfold emissionAt at h
  cases hE : emittedSoFar memo e with
  | error er => simp only [hE] at h; exact Except.noConfusion h
  | ok emitted =>
    simp only [hE] at h
    cases hD : checkedDiv (flow.flow_asset.amount - emitted) (flow.end_epoch - e) with
    | error er => simp only [hD] at h; exact Except.noConfusion h
    | ok emission =>
      simp only [hD] at h
      obtain ⟨hne, rfl⟩ := checkedDiv_ok hD
      cases h
      exact ⟨rfl, hne, rfl⟩

theorem emissionAt_err {flow : Flow} {memo : Memo} {e : Nat}
    {er : ContractError} (h : emissionAt flow memo e = .error er) :
    er = .epochUnderflow ∨ er = .divideByZero := by
  unfold emissionAt at h
  cases hE : emittedSoFar memo e with
  | error er' =>
    simp only [hE] at h
    cases h
    exact Or.inl (emittedSoFar_err hE).1
  | ok emitted =>
    simp only [hE] at h
    cases hD : checkedDiv (flow.flow_asset.amount - emitted) (flow.end_epoch - e) with
    | error er' =>
      simp only [hD] at h
      cases h
      exact Or.inr (checkedDiv_err hD)
    | ok emission => simp only [hD] at h; exact Except.noConfusion h

end Incentive

namespace Incentive

/-- Success characterization of the epoch-loop body: on success the memo is
advanced by exactly the memoization step for the derived emission, and the
accumulated total grows by at most that epoch's emission (the per-epoch
reward is bounded by the emission thanks to the sanity check at line 166). -/
theorem epochBody_ok {flow : Flow} {st : Storage} {e : Nat} {memo : Memo}
    {cursor : Nat × Nat} {total : Nat} {m' : Memo} {c' : Nat × Nat}
    {t' : Nat} (h : epochBody flow st e memo cursor total = .ok (m', c', t')) :
    ∃ emitted, emittedSoFar memo e = .ok emitted ∧
      flow.end_epoch - e ≠ 0 ∧
      memoStep memo e emitted
        ((flow.flow_asset.amount - emitted) / (flow.end_epoch - e)) = .ok m' ∧
      total ≤ t' ∧
      t' ≤ total + (flow.flow_asset.amount - emitted) / (flow.end_epoch - e) := by
  unfold epochBody at h
  cases hE : emissionAt flow memo e with
  | error er => simp only [hE] at h; exact Except.noConfusion h
  | ok p =>
    obtain ⟨emitted, emission⟩ := p
    obtain ⟨hes, hk, hem⟩ := emissionAt_ok hE
    have hem' : emission = (flow.flow_asset.amount - emitted) / (flow.end_epoch - e) := hem
    simp only [hE] at h
    cases hM : memoStep memo e emitted emission with
    | error er => simp only [hM] at h; exact Except.noConfusion h
    | ok memo1 =>
      simp only [hM] at h
      rw [hem'] at hM
      cases hR : resolveUserWeight (st.userWeight e) cursor e with
      | none =>
        simp only [hR] at h
        cases h
        exact ⟨emitted, hes, hk, hM, Nat.le_refl _, Nat.le_add_right _ _⟩
      | some wc =>
        obtain ⟨w, cursor'⟩ := wc
        simp only [hR] at h
        by_cases hg : (st.globalWeight e).getD 0 = 0
        · rw [if_pos hg] at h
          cases h
          exact ⟨emitted, hes, hk, hM, Nat.le_refl _, Nat.le_add_right _ _⟩
        · rw [if_neg hg] at h
          cases hF : fromRatio w ((st.globalWeight e).getD 0) with
          | error er => simp only [hF] at h; exact Except.noConfusion h
          | ok share =>
            simp only [hF] at h
            cases hT : tryIntoU128 (mulDecFloor emission share) with
            | error er => simp only [hT] at h; exact Except.noConfusion h
            | ok reward =>
              simp only [hT] at h
              by_cases hlt : emission < reward
              · rw [if_pos hlt] at h; exact Except.noConfusion h
              · rw [if_neg hlt] at h
                cases hA : checkedAdd reward flow.claimed_amount with
                | error er => simp only [hA] at h; exact Except.noConfusion h
                | ok s =>
                  simp only [hA] at h
                  by_cases hs : flow.flow_asset.amount < s
                  · rw [if_pos hs] at h; exact Except.noConfusion h
                  · rw [if_neg hs] at h
                    cases hA2 : checkedAdd total reward with
                    | error er => simp only [hA2] at h; exact Except.noConfusion h
                    | ok t1 =>
                      simp only [hA2] at h
                      cases h
                      obtain ⟨rfl, -⟩ := checkedAdd_ok hA2
                      refine ⟨emitted, hes, hk, hM, Nat.le_add_right _ _, ?_⟩
                      rw [← hem']
                      omega

end Incentive

namespace Incentive

theorem emissionAt_underflow {flow : Flow} {memo : Memo} {e : Nat}
    (h : emissionAt flow memo e = .error .epochUnderflow) : e = 0 := by
  unfold emissionAt at h
  cases hE : emittedSoFar memo e with
  | error er => exact (emittedSoFar_err hE).2.1
  | ok emitted =>
    simp only [hE] at h
    cases hD : checkedDiv (flow.flow_asset.amount - emitted) (flow.end_epoch - e) with
    | error er =>
      simp only [hD] at h
      cases h
      exact absurd (checkedDiv_err hD) (by decide)
    | ok emission => simp only [hD] at h; exact Except.noConfusion h

/-- The only abort path of the epoch body that is the `u64` underflow of
`epoch_id - 1` (line 101) requires `epoch_id = 0`. -/
theorem epochBody_underflow {flow : Flow} {st : Storage} {e : Nat}
    {memo : Memo} {cursor : Nat × Nat} {total : Nat}
    (h : epochBody flow st e memo cursor total = .error .epochUnderflow) :
    e = 0 := by
  unfold epochBody at h
  cases hE : emissionAt flow memo e with
  | error er =>
    simp only [hE] at h
    cases h
    exact emissionAt_underflow hE
  | ok p =>
    obtain ⟨emitted, emission⟩ := p
    simp only [hE] at h
    cases hM : memoStep memo e emitted emission with
    | error er =>
      simp only [hM] at h
      cases h
      exact absurd (memoStep_err hM) (by decide)
    | ok memo1 =>
      simp only [hM] at h
      cases hR : resolveUserWeight (st.userWeight e) cursor e with
      | none => simp only [hR] at h; exact Except.noConfusion h
      | some wc =>
        obtain ⟨w, cursor'⟩ := wc
        simp only [hR] at h
        by_cases hg : (st.globalWeight e).getD 0 = 0
        · rw [if_pos hg] at h; exact Except.noConfusion h
        · rw [if_neg hg] at h
          cases hF : fromRatio w ((st.globalWeight e).getD 0) with
          | error er =>
            simp only [hF] at h
            cases h
            exact absurd (fromRatio_err hF).1 (by decide)
          | ok share =>
            simp only [hF] at h
            cases hT : tryIntoU128 (mulDecFloor emission share) with
            | error er =>
              simp only [hT] at h
              cases h
              exact absurd (tryIntoU128_err hT) (by decide)
            | ok reward =>
              simp only [hT] at h
              by_cases hlt : emission < reward
              · rw [if_pos hlt] at h; simp at h
              · rw [if_neg hlt] at h
                cases hA : checkedAdd reward flow.claimed_amount with
                | error er =>
                  simp only [hA] at h
                  cases h
                  exact absurd (checkedAdd_err hA) (by decide)
                | ok s =>
                  simp only [hA] at h
                  by_cases hs : flow.flow_asset.amount < s
                  · rw [if_pos hs] at h; simp at h
                  · rw [if_neg hs] at h
                    cases hA2 : checkedAdd total reward with
                    | error er =>
                      simp only [hA2] at h
                      cases h
                      exact absurd (checkedAdd_err hA2) (by decide)
                    | ok t1 => simp only [hA2] at h; exact Except.noConfusion h

/-- The epoch loop keeps the running reward total below the flow total
whenever the conservation invariant holds at entry. -/
theorem flowEpochs_conserve {flow : Flow} {st : Storage} :
    ∀ {n : Nat} {a : Nat} {memo : Memo} {cursor : Nat × Nat}
      {total : Nat} {out : Memo × (Nat × Nat) × Nat},
      consInv flow.flow_asset.amount flow.start_epoch a memo total →
      flowEpochs flow st n a memo cursor total = .ok out →
      out.2.2 ≤ flow.flow_asset.amount := by
  intro n
  induction n with
  | zero =>
    intro a memo cursor total out hInv h
    simp only [flowEpochs] at h
    cases h
    rcases hInv with ⟨-, rfl⟩ | ⟨-, -, -, -, c, -, htc, hcA⟩
    · exact Nat.zero_le _
    · exact Nat.le_trans htc hcA
  | succ n ih =>
    intro a memo cursor total out hInv h
    simp only [flowEpochs] at h
    by_cases h1 : a < flow.start_epoch
    · rw [if_pos h1] at h
      refine ih ?_ h
      rcases hInv with hL | ⟨-, h2, -⟩
      · exact Or.inl hL
      · omega
    · rw [if_neg h1] at h
      by_cases h2 : flow.end_epoch ≤ a
      · rw [if_pos h2] at h
        cases h
        rcases hInv with ⟨-, rfl⟩ | ⟨-, -, -, -, c, -, htc, hcA⟩
        · exact Nat.zero_le _
        · exact Nat.le_trans htc hcA
      · rw [if_neg h2] at h
        cases hB : epochBody flow st a memo cursor total with
        | error er => rw [hB] at h; exact Except.noConfusion h
        | ok trip =>
          obtain ⟨m1, c1, t1⟩ := trip
          rw [hB] at h
          refine ih ?_ h
          obtain ⟨emitted, hes, hk, hMS, hle, hub⟩ := epochBody_ok hB
          rcases memoStep_ok hMS with ⟨hnone, hbound, rfl⟩ | ⟨hsome, rfl⟩
          · rcases hInv with ⟨rfl, rfl⟩ | ⟨ha1, ha2, hne, hfut, c, hfc, htc, hcA⟩
            · have h0 : emitted = 0 := emittedSoFar_ok_empty hes
              subst h0
              refine Or.inr ⟨Nat.le_add_left 1 a, by omega,
                by simp [memoInsert], ?_, ?_⟩
              · intro e he
                rw [memoFind_insert_ne _ _ (by omega)]
                rfl
              · refine ⟨(flow.flow_asset.amount - 0) / (flow.end_epoch - a) + 0,
                  by simpa using memoFind_insert_self _ _ _, by omega, ?_⟩
                simpa using Nat.div_le_self _ _
            · have hval : emitted = c := by
                have := emittedSoFar_ok_pos hne (by omega) hes
                rw [hfc] at this
                simpa using this
              subst hval
              have hdl : (flow.flow_asset.amount - emitted) / (flow.end_epoch - a) ≤
                  flow.flow_asset.amount - emitted := Nat.div_le_self _ _
              refine Or.inr ⟨by omega, by omega, by simp [memoInsert], ?_, ?_⟩
              · intro e he
                rw [memoFind_insert_ne _ _ (by omega)]
                exact hfut e (by omega)
              · refine ⟨(flow.flow_asset.amount - emitted) / (flow.end_epoch - a) + emitted,
                  by simpa using memoFind_insert_self _ _ _, by omega, by omega⟩
          · rcases hInv with ⟨rfl, rfl⟩ | ⟨ha1, ha2, hne, hfut, c, hfc, htc, hcA⟩
            · simp [memoFind] at hsome
            · rw [hfut a (Nat.le_refl a)] at hsome
              simp at hsome

end Incentive

namespace Incentive

/-- The epoch loop (a) never deletes or overwrites an existing memo entry
and (b) records an entry for every epoch of the range that lies inside the
flow's activity window. -/
theorem flowEpochs_memo {flow : Flow} {st : Storage} :
    ∀ {n a : Nat} {memo : Memo} {cursor : Nat × Nat} {total : Nat}
      {m' : Memo} {c' : Nat × Nat} {t' : Nat},
      flowEpochs flow st n a memo cursor total = .ok (m', c', t') →
      (∀ e v, memoFind memo e = some v → memoFind m' e = some v) ∧
      (∀ e, a ≤ e → e < a + n → flow.start_epoch ≤ e → e < flow.end_epoch →
        (memoFind m' e).isSome) := by
  intro n
  induction n with
  | zero =>
    intro a memo cursor total m' c' t' h
    simp only [flowEpochs] at h
    cases h
    refine ⟨fun e v hv => hv, fun e he1 he2 _ _ => ?_⟩
    omega
  | succ n ih =>
    intro a memo cursor total m' c' t' h
    simp only [flowEpochs] at h
    by_cases h1 : a < flow.start_epoch
    · rw [if_pos h1] at h
      obtain ⟨hpres, hcov⟩ := ih h
      refine ⟨hpres, fun e he1 he2 he3 he4 => ?_⟩
      exact hcov e (by omega) (by omega) he3 he4
    · rw [if_neg h1] at h
      by_cases h2 : flow.end_epoch ≤ a
      · rw [if_pos h2] at h
        cases h
        refine ⟨fun e v hv => hv, fun e he1 he2 he3 he4 => ?_⟩
        omega
      · rw [if_neg h2] at h
        cases hB : epochBody flow st a memo cursor total with
        | error er => rw [hB] at h; exact Except.noConfusion h
        | ok trip =>
          obtain ⟨m1, c1, t1⟩ := trip
          rw [hB] at h
          obtain ⟨hpres, hcov⟩ := ih h
          obtain ⟨emitted, hes, hk, hMS, -, -⟩ := epochBody_ok hB
          have hstep : (∀ e v, memoFind memo e = some v → memoFind m1 e = some v) ∧
              (memoFind m1 a).isSome := by
            rcases memoStep_ok hMS with ⟨hnone, -, rfl⟩ | ⟨hsome, rfl⟩
            · constructor
              · intro e v hv
                have hne : a ≠ e := by
                  intro hEq
                  rw [← hEq, hnone] at hv
                  exact Option.noConfusion hv
                rw [memoFind_insert_ne _ _ hne]
                exact hv
              · rw [memoFind_insert_self]
                rfl
            · exact ⟨fun e v hv => hv, hsome⟩
          refine ⟨fun e v hv => hpres e v (hstep.1 e v hv), ?_⟩
          intro e he1 he2 he3 he4
          by_cases hea : e = a
          · subst hea
            obtain ⟨v, hv⟩ := Option.isSome_iff_exists.mp hstep.2
            have := hpres e v hv
            rw [this]
            rfl
          · exact hcov e (by omega) (by omega) he3 he4

/-- The epoch loop can only abort with the epoch-0 underflow if the range
starts at 0 and the flow starts at 0. -/
theorem flowEpochs_no_underflow {flow : Flow} {st : Storage} :
    ∀ {n a : Nat} {memo : Memo} {cursor : Nat × Nat} {total : Nat},
      (1 ≤ flow.start_epoch ∨ 1 ≤ a) →
      flowEpochs flow st n a memo cursor total ≠ .error .epochUnderflow := by
  intro n
  induction n with
  | zero =>
    intro a memo cursor total hpre h
    simp only [flowEpochs] at h
    exact Except.noConfusion h
  | succ n ih =>
    intro a memo cursor total hpre h
    simp only [flowEpochs] at h
    by_cases h1 : a < flow.start_epoch
    · rw [if_pos h1] at h
      exact ih (Or.inr (by omega)) h
    · rw [if_neg h1] at h
      by_cases h2 : flow.end_epoch ≤ a
      · rw [if_pos h2] at h; exact Except.noConfusion h
      · rw [if_neg h2] at h
        cases hB : epochBody flow st a memo cursor total with
        | error er =>
          rw [hB] at h
          cases h
          have ha0 : a = 0 := epochBody_underflow hB
          omega
        | ok trip =>
          obtain ⟨m1, c1, t1⟩ := trip
          rw [hB] at h
          exact ih (Or.inr (by omega)) h

/-- One step of the decaying-remainder recurrence can increase the per-epoch
emission by at most one token (the rounding remainder being redistributed). -/
theorem decay_step_bound (A c k : Nat) (hk : 2 ≤ k) :
    (A - ((A - c) / k + c)) / (k - 1) ≤ (A - c) / k + 1 := by
  have hk0 : 0 < k := by omega
  have hk1 : 0 < k - 1 := by omega
  obtain ⟨r, hr⟩ : ∃ r, A - c = r := ⟨A - c, rfl⟩
  obtain ⟨q, hq⟩ : ∃ q, r / k = q := ⟨r / k, rfl⟩
  rw [hr, hq]
  have hsub : A - (q + c) = r - q := by omega
  rw [hsub]
  have hrk : r < (q + 1) * k := by
    have hlt : r / k < q + 1 := by omega
    exact (Nat.div_lt_iff_lt_mul hk0).mp hlt
  have hexp : (q + 1) * k = (q + 1) * (k - 1) + (q + 1) := by
    have h1 : k - 1 + 1 = k := by omega
    calc (q + 1) * k = (q + 1) * (k - 1 + 1) := by rw [h1]
      _ = (q + 1) * (k - 1) + (q + 1) := Nat.mul_succ _ _
  have hle : r - q ≤ (q + 1) * (k - 1) := by omega
  calc (r - q) / (k - 1) ≤ ((q + 1) * (k - 1)) / (k - 1) := Nat.div_le_div_right hle
    _ = q + 1 := Nat.mul_div_cancel (q + 1) hk1

end Incentive

namespace Incentive

/-- C6: for every address whose last-claimed epoch is recorded and equal to
the current epoch, `get_rewards` returns an empty reward set immediately;
since the statement holds for arbitrary flow lists and weight maps, the
result depends only on the current-epoch and last-claimed-epoch lookups
(no flow iteration, no further state reads). -/
theorem C6_short_circuit :
    ∀ st : Storage, st.lastClaimedEpoch = some st.currentEpoch →
      get_rewards st = .ok { rewards := [] } := by
  intro st h
  unfold get_rewards
  rw [if_pos h]

/-- Witness for `C6_short_circuit` at the concrete state `ex6St`. -/
theorem C6_short_circuit_witness :
    get_rewards ex6St = .ok { rewards := [] } :=
  C6_short_circuit ex6St rfl

/-- C1: for every in-range epoch that the loop evaluates without hitting the
epoch-0 underflow (memo empty, or `e ≥ 1`), the derived emission equals the
spec's formula `(amount ⊖ memo[e-1].getD 0) / (end_epoch - e)`; and on the
worked example (1000 tokens over epochs 0..3) the per-epoch emissions are
250, 250, 250, 250 with memoized cumulative values 250, 500, 750, 1000. -/
theorem C1_emission_formula :
    (∀ (flow : Flow) (memo : Memo) (e : Nat),
        flow.start_epoch ≤ e → e < flow.end_epoch → (memo = [] ∨ 1 ≤ e) →
        (emissionAt flow memo e).map (fun p => p.2) =
          .ok (specEmission flow memo e)) ∧
    (emissionAt ex1Flow [] 0).map (fun p => p.2) = .ok 250 ∧
    (emissionAt ex1Flow [(0, 250)] 1).map (fun p => p.2) = .ok 250 ∧
    (emissionAt ex1Flow [(1, 500), (0, 250)] 2).map (fun p => p.2) = .ok 250 ∧
    (emissionAt ex1Flow [(2, 750), (1, 500), (0, 250)] 3).map (fun p => p.2) =
      .ok 250 ∧
    (processFlow ex1St ex1Flow).map
        (fun p => [memoFind p.2 0, memoFind p.2 1, memoFind p.2 2,
          memoFind p.2 3]) =
      .ok [some 250, some 500, some 750, some 1000] := by
  refine ⟨?_, rfl, rfl, rfl, rfl, rfl⟩
  intro flow memo e hstart hend hcase
  have hk : flow.end_epoch - e ≠ 0 := Nat.sub_ne_zero_of_lt hend
  have hes : emittedSoFar memo e = .ok ((memoFind memo (e - 1)).getD 0) := by
    by_cases hmemo : memo = []
    · subst hmemo
      unfold emittedSoFar
      simp [memoFind]
    · have h1 : 1 ≤ e := by
        rcases hcase with h | h
        · exact absurd h hmemo
        · exact h
      unfold emittedSoFar
      rw [if_neg (by simpa [List.isEmpty_iff] using hmemo)]
      rw [if_neg (by omega : ¬ e = 0)]
  have hdv : checkedDiv (flow.flow_asset.amount - (memoFind memo (e - 1)).getD 0)
      (flow.end_epoch - e) =
      .ok ((flow.flow_asset.amount - (memoFind memo (e - 1)).getD 0) /
        (flow.end_epoch - e)) := by
    unfold checkedDiv
    rw [if_neg hk]
  unfold emissionAt
  simp only [hes, hdv, Except.map]
  rfl

/-- Witness for the universally quantified part of `C1_emission_formula`. -/
theorem C1_emission_formula_witness :
    (emissionAt ex1Flow [] 0).map (fun p => p.2) =
      .ok (specEmission ex1Flow [] 0) :=
  C1_emission_formula.1 ex1Flow [] 0 (Nat.le_refl 0) (by decide) (Or.inl rfl)

/-- C2 counterexample: the memo `{1 ↦ 0, 2 ↦ 0, 3 ↦ 0}` of `ex2Flow`
satisfies the claimed data-model invariants, yet a single successful
`get_rewards` call awards 2083 tokens from a flow funded with 1000. -/
theorem C2_conservation_counterexample :
    memoWellFormed ex2Flow ∧
    get_rewards ex2St = .ok { rewards := [{ info := 7, amount := 2083 }] } ∧
    ex2Flow.flow_asset.amount < 2083 := by
  refine ⟨?_, rfl, by decide⟩
  unfold memoWellFormed
  exact ⟨by decide, by decide⟩

/-- C2 amended: when the flow's memo is empty at the start of the call (the
situation in which the emission recurrence is actually followed), the
per-flow reward total of a successful call never exceeds the flow's funded
amount. -/
theorem C2_conservation_amended :
    ∀ (st : Storage) (flow : Flow) (p : Asset × Memo),
      flow.emitted_tokens = [] → processFlow st flow = .ok p →
      p.1.amount ≤ flow.flow_asset.amount := by
  intro st flow p hmemo h
  unfold processFlow at h
  cases hF : flowEpochs flow st
      (st.currentEpoch + 1 - firstClaimableEpoch st flow (initCursor st).1)
      (firstClaimableEpoch st flow (initCursor st).1)
      flow.emitted_tokens (initCursor st) 0 with
  | error er => simp only [hF] at h; exact Except.noConfusion h
  | ok trip =>
    obtain ⟨m1, c1, t1⟩ := trip
    simp only [hF] at h
    cases h
    have hInv : consInv flow.flow_asset.amount flow.start_epoch
        (firstClaimableEpoch st flow (initCursor st).1) flow.emitted_tokens 0 :=
      Or.inl ⟨hmemo, rfl⟩
    exact flowEpochs_conserve hInv hF

/-- Witness for `C2_conservation_amended` on the worked example. -/
theorem C2_conservation_amended_witness :
    ({ info := 7, amount := 1000 } : Asset).amount ≤
      ex1Flow.flow_asset.amount :=
  C2_conservation_amended ex1St ex1Flow
    ({ info := 7, amount := 1000 }, [(3, 1000), (2, 750), (1, 500), (0, 250)])
    rfl rfl

end Incentive

namespace Incentive

/-- C5 counterexample: a successful `get_rewards` call that rewards epochs
0..2 of `ex1Flow` (750 tokens).  The cumulative value for visited epoch 0 is
present only in the call-local memo clone; the flow record itself (the only
memo that survives the read-only query, whose `Deps` handle cannot write
storage) still has no entry for epoch 0 after the call. -/
theorem C5_frame_counterexample :
    get_rewards ex5St = .ok { rewards := [{ info := 7, amount := 750 }] } ∧
    (processFlow ex5St ex1Flow).map (fun p => memoFind p.2 0) =
      .ok (some 250) ∧
    memoFind ex1Flow.emitted_tokens 0 = none :=
  ⟨rfl, rfl, rfl⟩

/-- C5 amended: the memoization happens on the call-local clone of the
flow's memo: on success that local memo keeps every pre-existing entry
unchanged (entries are written only when not already present) and holds an
entry for every epoch the loop visited inside the flow's activity window;
the flow record itself and all other storage are never modified (the model's
`get_rewards` is a pure function of `Storage` that returns only a
response). -/
theorem C5_frame_amended :
    ∀ (st : Storage) (flow : Flow) (asset : Asset) (memoOut : Memo),
      processFlow st flow = .ok (asset, memoOut) →
      (∀ e v, memoFind flow.emitted_tokens e = some v →
        memoFind memoOut e = some v) ∧
      (∀ e, firstClaimableEpoch st flow (initCursor st).1 ≤ e →
        e ≤ st.currentEpoch → flow.start_epoch ≤ e → e < flow.end_epoch →
        (memoFind memoOut e).isSome) := by
  intro st flow asset memoOut h
  unfold processFlow at h
  cases hF : flowEpochs flow st
      (st.currentEpoch + 1 - firstClaimableEpoch st flow (initCursor st).1)
      (firstClaimableEpoch st flow (initCursor st).1)
      flow.emitted_tokens (initCursor st) 0 with
  | error er => simp only [hF] at h; exact Except.noConfusion h
  | ok trip =>
    obtain ⟨m1, c1, t1⟩ := trip
    simp only [hF] at h
    cases h
    obtain ⟨hpres, hcov⟩ := flowEpochs_memo hF
    refine ⟨hpres, ?_⟩
    intro e he1 he2 he3 he4
    refine hcov e he1 ?_ he3 he4
    omega

/-- Witness for `C5_frame_amended` at the concrete `ex5St` call. -/
theorem C5_frame_amended_witness :
    (memoFind [(2, 750), (1, 500), (0, 250)] 0).isSome = true :=
  (C5_frame_amended ex5St ex1Flow { info := 7, amount := 750 }
      [(2, 750), (1, 500), (0, 250)] rfl).2 0
    (Nat.le_refl 0) (Nat.zero_le 2) (Nat.le_refl 0) (by decide)

/-- C10 counterexample: a never-claimed address (no weight snapshots, so the
cursor epoch is 0) claiming a flow that starts at epoch 0 whose memo was
already populated by an earlier claimer reaches epoch 0 with a non-empty
memo, and the `u64` subtraction `epoch_id - 1` underflows (modelled as the
`epochUnderflow` abort). -/
theorem C10_underflow_counterexample :
    get_rewards ex10St = .error .epochUnderflow := rfl

theorem processFlow_no_underflow {st : Storage} {flow : Flow}
    (hpre : 1 ≤ flow.start_epoch ∨ ∃ l, st.lastClaimedEpoch = some l) :
    processFlow st flow ≠ .error .epochUnderflow := by
  intro h
  unfold processFlow at h
  cases hF : flowEpochs flow st
      (st.currentEpoch + 1 - firstClaimableEpoch st flow (initCursor st).1)
      (firstClaimableEpoch st flow (initCursor st).1)
      flow.emitted_tokens (initCursor st) 0 with
  | error er =>
    simp only [hF] at h
    cases h
    refine flowEpochs_no_underflow ?_ hF
    rcases hpre with h1 | ⟨l, hl⟩
    · exact Or.inl h1
    · have hfc : firstClaimableEpoch st flow (initCursor st).1 = l + 1 := by
        unfold firstClaimableEpoch
        simp only [hl]
      right
      rw [hfc]
      omega
  | ok trip =>
    obtain ⟨m1, c1, t1⟩ := trip
    simp only [hF] at h
    exact Except.noConfusion h

theorem flowsLoop_no_underflow {st : Storage} :
    ∀ {flows : List Flow},
      ((∀ f ∈ flows, 1 ≤ f.start_epoch) ∨ ∃ l, st.lastClaimedEpoch = some l) →
      flowsLoop st flows ≠ .error .epochUnderflow := by
  intro flows
  induction flows with
  | nil =>
    intro hpre h
    simp only [flowsLoop] at h
    exact Except.noConfusion h
  | cons f rest ih =>
    intro hpre h
    simp only [flowsLoop] at h
    by_cases hskip : f.end_epoch < st.currentEpoch ∧
        f.claimed_amount = f.flow_asset.amount
    · rw [if_pos hskip] at h
      refine ih ?_ h
      rcases hpre with hs | hl
      · exact Or.inl fun g hg => hs g (List.mem_cons_of_mem f hg)
      · exact Or.inr hl
    · rw [if_neg hskip] at h
      cases hP : processFlow st f with
      | error er =>
        simp only [hP] at h
        cases h
        refine processFlow_no_underflow ?_ hP
        rcases hpre with hs | hl
        · exact Or.inl (hs f (List.mem_cons_self f rest))
        · exact Or.inr hl
      | ok p =>
        obtain ⟨asset, memo⟩ := p
        simp only [hP] at h
        cases hR : flowsLoop st rest with
        | error er =>
          rw [hR] at h
          simp only [Except.map] at h
          cases h
          refine ih ?_ hR
          rcases hpre with hs | hl
          · exact Or.inl fun g hg => hs g (List.mem_cons_of_mem f hg)
          · exact Or.inr hl
        | ok assets =>
          rw [hR] at h
          simp only [Except.map] at h
          exact Except.noConfusion h

/-- C10 amended: the underflow cannot happen when every available flow
starts at epoch 1 or later, nor when the address has claimed before (every
evaluated epoch is then at least `last_claimed + 1 ≥ 1`); the claim as
stated fails only on the epoch-0 path shown by the counterexample. -/
theorem C10_underflow_amended :
    (∀ st : Storage, (∀ f ∈ st.flows, 1 ≤ f.start_epoch) →
      get_rewards st ≠ .error .epochUnderflow) ∧
    (∀ (st : Storage) (l : Nat), st.lastClaimedEpoch = some l →
      get_rewards st ≠ .error .epochUnderflow) := by
  constructor
  · intro st hs h
    unfold get_rewards at h
    by_cases hsc : st.lastClaimedEpoch = some st.currentEpoch
    · rw [if_pos hsc] at h
      exact Except.noConfusion h
    · rw [if_neg hsc] at h
      cases hL : flowsLoop st st.flows with
      | error er =>
        simp only [hL] at h
        cases h
        exact flowsLoop_no_underflow (Or.inl hs) hL
      | ok v =>
        simp only [hL] at h
        exact Except.noConfusion h
  · intro st l hl h
    unfold get_rewards at h
    by_cases hsc : st.lastClaimedEpoch = some st.currentEpoch
    · rw [if_pos hsc] at h
      exact Except.noConfusion h
    · rw [if_neg hsc] at h
      cases hL : flowsLoop st st.flows with
      | error er =>
        simp only [hL] at h
        cases h
        exact flowsLoop_no_underflow (Or.inr ⟨l, hl⟩) hL
      | ok v =>
        simp only [hL] at h
        exact Except.noConfusion h

/-- Witness for `C10_underflow_amended`: the `ex2St` call (its only flow
starts at epoch 1) cannot abort with the underflow. -/
theorem C10_underflow_amended_witness :
    get_rewards ex2St ≠ .error .epochUnderflow :=
  C10_underflow_amended.1 ex2St (by decide)

/-- C9 counterexample: two flows rewarding the same asset type produce two
separate entries in the response (the code pushes one entry per flow and
never merges same-asset entries), refuting "one entry per rewarded asset
type ... summed into a single entry". -/
theorem C9_aggregation_counterexample :
    get_rewards ex9St = .ok { rewards :=
      [{ info := 7, amount := 250 }, { info := 7, amount := 250 }] } ∧
    ¬ List.Pairwise (fun x y : Asset => x.info ≠ y.info)
      [{ info := 7, amount := 250 }, { info := 7, amount := 250 }] :=
  ⟨rfl, by decide⟩

/-- C9 amended: the response carries one entry per non-skipped flow in flow
order, each tagged with that flow's asset info (same-asset entries are not
merged), and the final filter guarantees that no zero-amount entry ever
appears in a successful response. -/
theorem C9_aggregation_amended :
    (∀ (st : Storage) (resp : RewardsResponse),
      get_rewards st = .ok resp → ∀ a ∈ resp.rewards, 0 < a.amount) ∧
    (∀ (st : Storage) (f : Flow) (rest : List Flow) (asset : Asset)
        (memo : Memo),
      ¬ (f.end_epoch < st.currentEpoch ∧
          f.claimed_amount = f.flow_asset.amount) →
      processFlow st f = .ok (asset, memo) →
      asset.info = f.flow_asset.info ∧
      flowsLoop st (f :: rest) =
        (flowsLoop st rest).map (fun assets => asset :: assets)) := by
  constructor
  · intro st resp h a ha
    unfold get_rewards at h
    by_cases hsc : st.lastClaimedEpoch = some st.currentEpoch
    · rw [if_pos hsc] at h
      cases h
      simp at ha
    · rw [if_neg hsc] at h
      cases hL : flowsLoop st st.flows with
      | error er => simp only [hL] at h; exact Except.noConfusion h
      | ok rewards =>
        simp only [hL] at h
        cases h
        have hfil := List.of_mem_filter ha
        exact of_decide_eq_true hfil
  · intro st f rest asset memo hskip hP
    constructor
    · unfold processFlow at hP
      cases hF : flowEpochs f st
          (st.currentEpoch + 1 - firstClaimableEpoch st f (initCursor st).1)
          (firstClaimableEpoch st f (initCursor st).1)
          f.emitted_tokens (initCursor st) 0 with
      | error er => simp only [hF] at hP; exact Except.noConfusion hP
      | ok trip =>
        obtain ⟨m1, c1, t1⟩ := trip
        simp only [hF] at hP
        cases hP
        rfl
    · simp only [flowsLoop]
      rw [if_neg hskip]
      simp only [hP]

/-- Witness for `C9_aggregation_amended` on the `ex5St` response. -/
theorem C9_aggregation_amended_witness :
    0 < ({ info := 7, amount := 750 } : Asset).amount :=
  C9_aggregation_amended.1 ex5St { rewards := [{ info := 7, amount := 750 }] }
    rfl { info := 7, amount := 750 } (by decide)

end Incentive

namespace Incentive

/-- C4 counterexample: the address's weight history records weight 5 at
epoch 0 (an entry at an epoch `≤ 1` exists), yet evaluating epoch 1 skips
(`resolveUserWeight` returns `none`) because the cursor test
`last_epoch_user_weight_update != 0` conflates "recorded at epoch 0" with
"never recorded".  The full call therefore pays only epoch 0's reward (12),
not 24 as the claimed rule would. -/
theorem C4_weight_lookback_counterexample :
    ex4St.userWeight 0 = some 5 ∧
    resolveUserWeight (ex4St.userWeight 1) (0, 5) 1 = none ∧
    get_rewards ex4St = .ok { rewards := [{ info := 7, amount := 12 }] } :=
  ⟨rfl, rfl, rfl⟩

/-- C4 amended: the weight used at epoch `e` is the history entry at `e`
when present (which also moves the cursor to `(e, value)`); otherwise the
cursor's carried value, but only when the cursor epoch is nonzero and
`≤ e`; the epoch is skipped (no reward contribution, no error, cursor
unchanged) exactly when no entry exists at `e` itself and the cursor is
unset (epoch 0 — including a genuine record at epoch 0) or at a later
epoch.  Entries recorded before the evaluated range at epochs other than
the earliest snapshot are never consulted. -/
theorem C4_weight_lookback_amended :
    (∀ (hist : Option Nat) (cursor : Nat × Nat) (e : Nat),
      (resolveUserWeight hist cursor e = none ↔
        hist = none ∧ (cursor.1 = 0 ∨ e < cursor.1)) ∧
      (∀ w, hist = some w →
        resolveUserWeight hist cursor e = some (w, (e, w))) ∧
      (hist = none → cursor.1 ≠ 0 → cursor.1 ≤ e →
        resolveUserWeight hist cursor e = some (cursor.2, cursor))) ∧
    (∀ (flow : Flow) (st : Storage) (e : Nat) (memo : Memo)
        (cursor : Nat × Nat) (total : Nat) (p : Nat × Nat) (m' : Memo),
      emissionAt flow memo e = .ok p → memoStep memo e p.1 p.2 = .ok m' →
      resolveUserWeight (st.userWeight e) cursor e = none →
      epochBody flow st e memo cursor total = .ok (m', cursor, total)) := by
  constructor
  · intro hist cursor e
    refine ⟨?_, ?_, ?_⟩
    · cases hist with
      | some w => simp [resolveUserWeight]
      | none =>
        simp only [resolveUserWeight]
        by_cases hc : cursor.1 ≠ 0 ∧ cursor.1 ≤ e
        · rw [if_pos hc]
          constructor
          · intro h
            exact Option.noConfusion h
          · rintro ⟨-, h2⟩
            exfalso
            omega
        · rw [if_neg hc]
          have hd : cursor.1 = 0 ∨ e < cursor.1 := by omega
          constructor
          · intro _h
            exact ⟨trivial, hd⟩
          · intro _h
            rfl
    · intro w hw
      subst hw
      rfl
    · intro hn h0 hle
      subst hn
      unfold resolveUserWeight
      rw [if_pos ⟨h0, hle⟩]
  · intro flow st e memo cursor total p m' hE hM hR
    obtain ⟨emitted, emission⟩ := p
    unfold epochBody
    simp only [hE, hM, hR]

/-- Witness for `C4_weight_lookback_amended`: the skip at epoch 1 of the
counterexample state contributes nothing and raises no error. -/
theorem C4_weight_lookback_amended_witness :
    epochBody ex1Flow ex4St 1 [(0, 250)] (0, 5) 0 =
      .ok ([(1, 500), (0, 250)], (0, 5), 0) :=
  C4_weight_lookback_amended.2 ex1Flow ex4St 1 [(0, 250)] (0, 5) 0
    (250, 250) [(1, 500), (0, 250)] rfl rfl rfl

/-- C7: an epoch whose global weight snapshot is absent or zero is skipped
with zero contribution and no error (the memo write still happens first),
and no run of the epoch body can ever hit the `Decimal256::from_ratio`
division-by-zero panic — the share ratio is only formed after the zero
check. -/
theorem C7_zero_global_weight :
    (∀ (flow : Flow) (st : Storage) (e : Nat) (memo : Memo)
        (cursor : Nat × Nat) (total : Nat) (p : Nat × Nat) (m' : Memo),
      emissionAt flow memo e = .ok p → memoStep memo e p.1 p.2 = .ok m' →
      (st.globalWeight e = none ∨ st.globalWeight e = some 0) →
      ∃ c', epochBody flow st e memo cursor total = .ok (m', c', total)) ∧
    (∀ (flow : Flow) (st : Storage) (e : Nat) (memo : Memo)
        (cursor : Nat × Nat) (total : Nat),
      epochBody flow st e memo cursor total ≠ .error .panicDivZero) := by
  constructor
  · intro flow st e memo cursor total p m' hE hM hg
    obtain ⟨emitted, emission⟩ := p
    have hg0 : (st.globalWeight e).getD 0 = 0 := by
      rcases hg with h | h <;> rw [h] <;> rfl
    unfold epochBody
    simp only [hE, hM]
    cases hR : resolveUserWeight (st.userWeight e) cursor e with
    | none =>
      refine ⟨cursor, ?_⟩
      simp only [hR]
    | some wc =>
      obtain ⟨w, cursor'⟩ := wc
      refine ⟨cursor', ?_⟩
      simp only [hR]
      rw [if_pos hg0]
  · intro flow st e memo cursor total h
    unfold epochBody at h
    cases hE : emissionAt flow memo e with
    | error er =>
      simp only [hE] at h
      cases h
      rcases emissionAt_err hE with h' | h' <;> exact absurd h' (by decide)
    | ok p =>
      obtain ⟨emitted, emission⟩ := p
      simp only [hE] at h
      cases hM : memoStep memo e emitted emission with
      | error er =>
        simp only [hM] at h
        cases h
        exact absurd (memoStep_err hM) (by decide)
      | ok memo1 =>
        simp only [hM] at h
        cases hR : resolveUserWeight (st.userWeight e) cursor e with
        | none => simp only [hR] at h; exact Except.noConfusion h
        | some wc =>
          obtain ⟨w, cursor'⟩ := wc
          simp only [hR] at h
          by_cases hg : (st.globalWeight e).getD 0 = 0
          · rw [if_pos hg] at h
            exact Except.noConfusion h
          · rw [if_neg hg] at h
            cases hF : fromRatio w ((st.globalWeight e).getD 0) with
            | error er =>
              simp only [hF] at h
              cases h
              exact absurd (fromRatio_err hF).2 hg
            | ok share =>
              simp only [hF] at h
              cases hT : tryIntoU128 (mulDecFloor emission share) with
              | error er =>
                simp only [hT] at h
                cases h
                exact absurd (tryIntoU128_err hT) (by decide)
              | ok reward =>
                simp only [hT] at h
                by_cases hlt : emission < reward
                · rw [if_pos hlt] at h
                  simp at h
                · rw [if_neg hlt] at h
                  cases hA : checkedAdd reward flow.claimed_amount with
                  | error er =>
                    simp only [hA] at h
                    cases h
                    exact absurd (checkedAdd_err hA) (by decide)
                  | ok s =>
                    simp only [hA] at h
                    by_cases hs : flow.flow_asset.amount < s
                    · rw [if_pos hs] at h
                      simp at h
                    · rw [if_neg hs] at h
                      cases hA2 : checkedAdd total reward with
                      | error er =>
                        simp only [hA2] at h
                        cases h
                        exact absurd (checkedAdd_err hA2) (by decide)
                      | ok t1 =>
                        simp only [hA2] at h
                        exact Except.noConfusion h

/-- Witness for `C7_zero_global_weight` on a state with no recorded global
weight at epoch 0. -/
theorem C7_zero_global_weight_witness :
    ∃ c', epochBody ex1Flow
        ⟨1, none, [], [], fun _ => none, fun _ => none⟩ 0 [] (0, 0) 0 =
      .ok ([(0, 250)], c', 0) :=
  C7_zero_global_weight.1 ex1Flow
    ⟨1, none, [], [], fun _ => none, fun _ => none⟩ 0 [] (0, 0) 0
    (0, 250) [(0, 250)] rfl rfl (Or.inl rfl)

/-- C8 counterexample: a flow funded with 3 over two epochs emits 1 then 2
at a constant weight ratio — the per-epoch emission strictly increases, so
the decaying-remainder schedule is not non-increasing. -/
theorem C8_decay_counterexample :
    (emissionAt ex8Flow [] 0).map (fun p => p.2) = .ok 1 ∧
    memoStep [] 0 0 1 = .ok [(0, 1)] ∧
    (emissionAt ex8Flow [(0, 1)] 1).map (fun p => p.2) = .ok 2 ∧
    processFlow ex8St ex8Flow = .ok ({ info := 7, amount := 3 }, [(1, 3), (0, 1)]) ∧
    (1 : Nat) < 2 :=
  ⟨rfl, rfl, rfl, rfl, by decide⟩

/-- C8 amended: across one genuine memoization step (the epoch's cumulative
value was not yet recorded and is written by the loop), the next epoch's
emission exceeds the current one by at most 1 — the schedule is
"non-increasing up to the rounding remainder", but not non-increasing, as
the counterexample shows. -/
theorem C8_decay_amended :
    ∀ (flow : Flow) (memo : Memo) (e emitted emission : Nat) (m' : Memo),
      e + 1 < flow.end_epoch →
      emissionAt flow memo e = .ok (emitted, emission) →
      memoFind memo e = none →
      memoStep memo e emitted emission = .ok m' →
      ∀ emission', (emissionAt flow m' (e + 1)).map (fun p => p.2) =
          .ok emission' →
        emission' ≤ emission + 1 := by
  intro flow memo e emitted emission m' hlt hE hfind hM emission' hE'
  obtain ⟨hes, hk, hem⟩ := emissionAt_ok hE
  have hem' : emission =
      (flow.flow_asset.amount - emitted) / (flow.end_epoch - e) := hem
  rcases memoStep_ok hM with ⟨-, -, rfl⟩ | ⟨hsome, -⟩
  · have hes' : emittedSoFar (memoInsert memo e (emission + emitted)) (e + 1) =
        .ok (emission + emitted) := by
      unfold emittedSoFar
      rw [if_neg (by simp [memoInsert])]
      rw [if_neg (by omega : ¬ e + 1 = 0)]
      simp [memoInsert, memoFind]
    have hk' : flow.end_epoch - (e + 1) ≠ 0 := by omega
    have hdv : checkedDiv (flow.flow_asset.amount - (emission + emitted))
        (flow.end_epoch - (e + 1)) =
        .ok ((flow.flow_asset.amount - (emission + emitted)) /
          (flow.end_epoch - (e + 1))) := by
      unfold checkedDiv
      rw [if_neg hk']
    unfold emissionAt at hE'
    simp only [hes', hdv, Except.map] at hE'
    cases hE'
    have harith := decay_step_bound flow.flow_asset.amount emitted
      (flow.end_epoch - e) (by omega)
    have h1 : flow.end_epoch - (e + 1) = flow.end_epoch - e - 1 := by omega
    rw [hem', h1]
    have h2 : (flow.flow_asset.amount - emitted) / (flow.end_epoch - e) +
        emitted =
        (flow.flow_asset.amount - emitted) / (flow.end_epoch - e) + emitted :=
      rfl
    exact harith
  · rw [hfind] at hsome
    simp at hsome

/-- Witness for `C8_decay_amended` on the counterexample flow: the bound
`2 ≤ 1 + 1` is tight there. -/
theorem C8_decay_amended_witness : (2 : Nat) ≤ 1 + 1 :=
  C8_decay_amended ex8Flow [] 0 0 1 [(0, 1)] (by decide) rfl rfl rfl 2 rfl

end Incentive

namespace Incentive

/-- C3: the epoch body aborts with the accounting-consistency error
`InvalidReward` exactly when an evaluated (non-skipped) epoch computes a
user reward exceeding that epoch's emission, or a reward that together with
the flow's already-claimed amount exceeds the flow's funded total; and any
such per-epoch error aborts the epoch loop, the flow loop and the whole
call, so no partial reward set is ever returned.  Conversely, when neither
condition holds at any evaluated epoch, no `InvalidReward` error arises —
the equivalence is exact. -/
theorem C3_invariant_error :
    (∀ (flow : Flow) (st : Storage) (e : Nat) (memo : Memo)
        (cursor : Nat × Nat) (total : Nat),
      epochBody flow st e memo cursor total = .error .invalidReward ↔
        ∃ p m' w c' share reward,
          emissionAt flow memo e = .ok p ∧
          memoStep memo e p.1 p.2 = .ok m' ∧
          resolveUserWeight (st.userWeight e) cursor e = some (w, c') ∧
          (st.globalWeight e).getD 0 ≠ 0 ∧
          fromRatio w ((st.globalWeight e).getD 0) = .ok share ∧
          tryIntoU128 (mulDecFloor p.2 share) = .ok reward ∧
          (p.2 < reward ∨
            ∃ s, checkedAdd reward flow.claimed_amount = .ok s ∧
              flow.flow_asset.amount < s)) ∧
    (∀ (flow : Flow) (st : Storage) (n e : Nat) (memo : Memo)
        (cursor : Nat × Nat) (total : Nat) (er : ContractError),
      ¬ e < flow.start_epoch → ¬ flow.end_epoch ≤ e →
      epochBody flow st e memo cursor total = .error er →
      flowEpochs flow st (n + 1) e memo cursor total = .error er) ∧
    (∀ (st : Storage) (f : Flow) (rest : List Flow) (er : ContractError),
      ¬ (f.end_epoch < st.currentEpoch ∧
          f.claimed_amount = f.flow_asset.amount) →
      processFlow st f = .error er →
      flowsLoop st (f :: rest) = .error er) ∧
    (∀ (st : Storage) (er : ContractError),
      st.lastClaimedEpoch ≠ some st.currentEpoch →
      flowsLoop st st.flows = .error er →
      get_rewards st = .error er) := by
  refine ⟨?_, ?_, ?_, ?_⟩
  · intro flow st e memo cursor total
    constructor
    · intro h
      unfold epochBody at h
      cases hE : emissionAt flow memo e with
      | error er =>
        simp only [hE] at h
        cases h
        rcases emissionAt_err hE with h' | h' <;> exact absurd h' (by decide)
      | ok p =>
        obtain ⟨emitted, emission⟩ := p
        simp only [hE] at h
        cases hM : memoStep memo e emitted emission with
        | error er =>
          simp only [hM] at h
          cases h
          exact absurd (memoStep_err hM) (by decide)
        | ok memo1 =>
          simp only [hM] at h
          cases hR : resolveUserWeight (st.userWeight e) cursor e with
          | none => simp only [hR] at h; exact Except.noConfusion h
          | some wc =>
            obtain ⟨w, cursor'⟩ := wc
            simp only [hR] at h
            by_cases hg : (st.globalWeight e).getD 0 = 0
            · rw [if_pos hg] at h
              exact Except.noConfusion h
            · rw [if_neg hg] at h
              cases hF : fromRatio w ((st.globalWeight e).getD 0) with
              | error er =>
                simp only [hF] at h
                cases h
                exact absurd (fromRatio_err hF).1 (by decide)
              | ok share =>
                simp only [hF] at h
                cases hT : tryIntoU128 (mulDecFloor emission share) with
                | error er =>
                  simp only [hT] at h
                  cases h
                  exact absurd (tryIntoU128_err hT) (by decide)
                | ok reward =>
                  simp only [hT] at h
                  by_cases hlt : emission < reward
                  · rw [if_pos hlt] at h
                    exact ⟨(emitted, emission), memo1, w, cursor', share,
                      reward, rfl, hM, rfl, hg, hF, hT, Or.inl hlt⟩
                  · rw [if_neg hlt] at h
                    cases hA : checkedAdd reward flow.claimed_amount with
                    | error er =>
                      simp only [hA] at h
                      cases h
                      exact absurd (checkedAdd_err hA) (by decide)
                    | ok s =>
                      simp only [hA] at h
                      by_cases hs : flow.flow_asset.amount < s
                      · rw [if_pos hs] at h
                        exact ⟨(emitted, emission), memo1, w, cursor', share,
                          reward, rfl, hM, rfl, hg, hF, hT,
                          Or.inr ⟨s, hA, hs⟩⟩
                      · rw [if_neg hs] at h
                        cases hA2 : checkedAdd total reward with
                        | error er =>
                          simp only [hA2] at h
                          cases h
                          exact absurd (checkedAdd_err hA2) (by decide)
                        | ok t1 =>
                          simp only [hA2] at h
                          exact Except.noConfusion h
    · rintro ⟨p, m', w, c', share, reward, hE, hM, hR, hg, hF, hT, hviol⟩
      obtain ⟨emitted, emission⟩ := p
      unfold epochBody
      simp only [hE, hM, hR]
      rw [if_neg hg]
      simp only [hF, hT]
      rcases hviol with hlt | ⟨s, hA, hs⟩
      · rw [if_pos hlt]
      · by_cases hlt : emission < reward
        · rw [if_pos hlt]
        · rw [if_neg hlt]
          simp only [hA]
          rw [if_pos hs]
  · intro flow st n e memo cursor total er h1 h2 hB
    simp only [flowEpochs]
    rw [if_neg h1, if_neg h2]
    simp only [hB]
  · intro st f rest er hskip hP
    simp only [flowsLoop]
    rw [if_neg hskip]
    simp only [hP]
  · intro st er hsc hL
    unfold get_rewards
    rw [if_neg hsc]
    simp only [hL]

/-- Witness for `C3_invariant_error`: at `ex3St` (user weight 200, global
weight 100, so the epoch-0 reward 500 exceeds the emission 250) the flow
loop aborts with `InvalidReward`. -/
theorem C3_invariant_error_witness :
    flowsLoop ex3St (ex1Flow :: []) = .error .invalidReward :=
  C3_invariant_error.2.2.1 ex3St ex1Flow [] .invalidReward (by decide) rfl

end Incentive
